import Mathlib

/-!
Verification development for the Yin-Yang row-wise enrichment system
(`yin_yang_processor.py`, `yin.py`, `yang.py`, `utils.py`).

The per-row retry state machine of `YinYangProcessor.process_data` is embedded
as a pure function over an oracle of attempt outcomes: each attempt of the loop
body either raises an exception somewhere in steps 1-3 (`build_row_context`,
`formulate_yang_task`, `process_task`) — modeled as `AttemptOutcome.raised` —
or the Executor returns a mapping `result` and the Planner's validation call
returns a boolean verdict — modeled as `AttemptOutcome.ok result verdict`
(`validate_yang_response` itself never raises, see its embedding below).
Cell values are modeled as strings; `process_data` stringifies every merged
value (`str(value)`), so the string model loses nothing the claims depend on.
-/

/-- Outcome of one iteration of the retry loop body in `process_data`
(lines 103-164 of `yin_yang_processor.py`). -/
inductive AttemptOutcome where
  | raised
  | ok (result : List (String × String)) (valid : Bool)
deriving DecidableEq

/-- One input row: an ordered mapping from column name to (stringified) cell value. -/
abbrev RowIn := List (String × String)

/-- The mutable per-row state of `process_data`: the row's cells in `result_df`
(original columns plus any merged enrichment columns), its `ai_decision` cell,
the `had_error` and `success` flags, and an instrumentation counter `attempts`
recording how many iterations of the retry loop body actually ran. -/
structure RowState where
  cells : List (String × String)
  decision : String
  hadError : Bool
  attempts : Nat
  success : Bool
deriving DecidableEq

/-- Writing one cell of the row, `result_df.loc[index, key] = str(value)`.
If the column exists its cell is overwritten, otherwise the column is appended. -/
def setCell (cells : List (String × String)) (k v : String) : List (String × String) :=
  if cells.any (fun p => p.1 = k) then
    cells.map (fun p => if p.1 = k then (k, v) else p)
  else cells ++ [(k, v)]

/-- Reading one cell of the row (first binding of the column name). -/
def getCell : List (String × String) → String → Option String
  | [], _ => none
  | p :: rest, k => if p.1 = k then some p.2 else getCell rest k

/-- The merge loop `for key, value in yang_result.items(): result_df.loc[index, key] = str(value)`
(lines 129-130 of `yin_yang_processor.py`). -/
def mergeResult (cells : List (String × String)) (result : List (String × String)) :
    List (String × String) :=
  result.foldl (fun cs p => setCell cs p.1 p.2) cells

/-- The last value bound to key `k` in an attempt result, if any
(Python's `dict.items()` iterates each key once; for an association list the
last binding is the one that ends up in the cell). -/
def lastVal (result : List (String × String)) (k : String) : Option String :=
  result.foldl (fun acc p => if p.1 = k then some p.2 else acc) none

/-- The retry loop `while not success and retry_count < self.max_retries`
(lines 103-164 of `yin_yang_processor.py`), consuming one attempt outcome per
iteration.  On an exception: `had_error = True`, `retry_count += 1`, continue.
On a returned result: merge the result into the cells regardless of the
verdict; if the verdict accepts, set `ai_decision = "valid"`, `success = True`
and break; otherwise set `ai_decision = "invalid"`, `retry_count += 1`, continue. -/
def processRowGo : List AttemptOutcome → RowState → RowState
  | [], s => s
  | AttemptOutcome.raised :: rest, s =>
      processRowGo rest { s with hadError := true, attempts := s.attempts + 1 }
  | AttemptOutcome.ok r true :: _, s =>
      { s with cells := mergeResult s.cells r, decision := "valid",
               success := true, attempts := s.attempts + 1 }
  | AttemptOutcome.ok r false :: rest, s =>
      processRowGo rest { s with cells := mergeResult s.cells r,
                                 decision := "invalid", attempts := s.attempts + 1 }

/-- Lines 166-175 of `yin_yang_processor.py`: after the loop, a row that never
succeeded is classified `"error"` if any attempt raised, else `"invalid"`. -/
def finalizeRow (s : RowState) : RowState :=
  if s.success then s
  else if s.hadError then { s with decision := "error" }
  else { s with decision := "invalid" }

/-- Initial per-row state: the row's original cells, empty `ai_decision`
(line 71), `success = False`, `had_error = False` (lines 100-101). -/
def initState (row : RowIn) : RowState :=
  { cells := row, decision := "", hadError := false, attempts := 0, success := false }

/-- Processing of one row by `process_data`: at most `maxRetries` attempts,
attempt number `k` (the current `retry_count`) behaving as `oracle k`. -/
def processRow (row : RowIn) (oracle : Nat → AttemptOutcome) (maxRetries : Nat) : RowState :=
  finalizeRow (processRowGo ((List.range maxRetries).map oracle) (initState row))

/-- The row iteration of `process_data` (`for index, row in df.iterrows()`)
with the default 0-based positional index; `oracle i` is the attempt behavior
for row `i`. -/
def processRows (oracle : Nat → Nat → AttemptOutcome) (mr : Nat) :
    Nat → List RowIn → List RowState
  | _, [] => []
  | i, row :: rest => processRow row (oracle i) mr :: processRows oracle mr (i + 1) rest

/-- Embedding of `process_data(df, user_command)`: the returned enriched table, one
`RowState` per input row.  The user command only feeds the prompts (hence the
oracle); it does not influence control flow, so it is absorbed into `oracle`.
The function is total: no exception from per-row processing propagates. -/
def process_data (df : List RowIn) (oracle : Nat → Nat → AttemptOutcome) (mr : Nat) :
    List RowState :=
  processRows oracle mr 0 df

/- ### Helper lemmas about the retry loop -/

/-- The loop never resets `success`; starting from a not-yet-successful state,
a final successful state can only come from the accepting branch, which writes
`"valid"`. -/
theorem processRowGo_success_valid (os : List AttemptOutcome) (s : RowState)
    (h : s.success = false) (hs : (processRowGo os s).success = true) :
    (processRowGo os s).decision = "valid" := by
  induction os generalizing s with
  | nil => simp [processRowGo] at hs; rw [hs] at h; cases h
  | cons o rest ih =>
    cases o with
    | raised => exact ih _ (by simpa [processRowGo] using h) (by simpa [processRowGo] using hs)
    | ok r v =>
      cases v with
      | true => simp [processRowGo]
      | false => exact ih _ (by simpa [processRowGo] using h) (by simpa [processRowGo] using hs)

/-- Whether an attempt outcome is an exception. -/
def isRaised : AttemptOutcome → Bool
  | AttemptOutcome.raised => true
  | AttemptOutcome.ok _ _ => false

/-- If the loop terminates without success, every supplied attempt was
consumed, and `had_error` ends set iff it started set or some attempt raised. -/
theorem processRowGo_hadError (os : List AttemptOutcome) (s : RowState)
    (h : (processRowGo os s).success = false) :
    (processRowGo os s).hadError = (s.hadError || os.any isRaised) := by
  induction os generalizing s with
  | nil => simp [processRowGo]
  | cons o rest ih =>
    cases o with
    | raised =>
      have := ih { s with hadError := true, attempts := s.attempts + 1 }
        (by simpa [processRowGo] using h)
      simp [processRowGo, this, isRaised]
    | ok r v =>
      cases v with
      | true => simp [processRowGo] at h
      | false =>
        have := ih { s with cells := mergeResult s.cells r,
                            decision := "invalid", attempts := s.attempts + 1 }
          (by simpa [processRowGo] using h)
        simp [processRowGo, this, isRaised]

theorem finalizeRow_success (s : RowState) : (finalizeRow s).success = s.success := by
  unfold finalizeRow
  split
  · rfl
  · split <;> rfl

/- ### Embedding of `YinAgent.validate_yang_response` (`yin.py`, lines 153-224) -/

/-- Prefix check on character lists, written out so that all
string reasoning in this file is by one pair of executable functions. -/
def hasPrefixL : List Char → List Char → Bool
  | [], _ => true
  | _ :: _, [] => false
  | a :: as, b :: bs => a = b && hasPrefixL as bs

/-- Python's `needle in hay` on strings, over character lists. -/
def hasSubstr (needle : List Char) : List Char → Bool
  | [] => needle.isEmpty
  | c :: rest => hasPrefixL needle (c :: rest) || hasSubstr needle rest

/-- The argument `yang_response`: in Python it is an arbitrary value; the
structural check only distinguishes dict from non-dict, so non-dict values are
collapsed into one constructor. -/
inductive YangResponse where
  | nonDict
  | dict (entries : List (String × String))
deriving DecidableEq

/-- Return value of the embedded `validate_yang_response`, instrumented with
whether the completion capability (`self.client.chat.completions.create`)
was invoked. -/
structure ValidateOut where
  isValid : Bool
  message : String
  llmCalled : Bool
deriving DecidableEq

/-- Embedding of `validate_yang_response(yang_response, context)`.  The completion
capability is an oracle `llm` that either raises (`Except.error e`, the
exception text) or returns the validation response text (`Except.ok text`);
every exception inside the `try` block is modeled through this oracle, and the
`except` clause turns it into `(False, "Validation error: " + str(e))`.
Acceptance is `"WOOHOO" in validation_response.upper()`. -/
def validate_yang_response (resp : YangResponse) (llm : Except String String) : ValidateOut :=
  match resp with
  | YangResponse.nonDict =>
      { isValid := false, message := "Response is not a valid JSON object", llmCalled := false }
  | YangResponse.dict entries =>
      if entries.isEmpty then
        { isValid := false, message := "Response is empty", llmCalled := false }
      else
        match llm with
        | Except.error e =>
            { isValid := false, message := "Validation error: " ++ e, llmCalled := true }
        | Except.ok text =>
            { isValid := hasSubstr ("WOOHOO".toList) (text.toList.map Char.toUpper),
              message := text, llmCalled := true }

theorem hasPrefixL_refl (l : List Char) : hasPrefixL l l = true := by
  induction l with
  | nil => rfl
  | cons c rest ih => simp [hasPrefixL, ih]

theorem hasSubstr_append_self (a n : List Char) : hasSubstr n (a ++ n) = true := by
  induction a with
  | nil =>
    cases n with
    | nil => rfl
    | cons c rest => simp [hasSubstr, hasPrefixL_refl]
  | cons c a' ih => simp [hasSubstr, ih]

/- ### Embedding of `parse_json_safely` (`utils.py`, lines 111-136) -/

/-- The two brace characters, kept as named constants. -/
def lbrace : Char := Char.ofNat 123

def rbrace : Char := Char.ofNat 125

def quoteChar : Char := Char.ofNat 34

def backslashChar : Char := Char.ofNat 92

/-- Parsed JSON values.  Numeric literals are kept verbatim (the claims only
depend on which texts parse and on the shape of the parsed value, not on
numeric semantics). -/
inductive JsonVal where
  | null
  | bool (b : Bool)
  | num (lit : String)
  | str (s : String)
  | arr (elems : List JsonVal)
  | obj (members : List (String × JsonVal))

/-- JSON insignificant whitespace. -/
def isWs (c : Char) : Bool :=
  c = ' ' || c = Char.ofNat 9 || c = Char.ofNat 10 || c = Char.ofNat 13

def skipWs : List Char → List Char
  | [] => []
  | c :: rest => if isWs c then skipWs rest else c :: rest

def isDigit (c : Char) : Bool := '0' ≤ c && c ≤ '9'

def hexDigit (c : Char) : Option Nat :=
  if '0' ≤ c && c ≤ '9' then some (c.toNat - 48)
  else if 'a' ≤ c && c ≤ 'f' then some (c.toNat - 87)
  else if 'A' ≤ c && c ≤ 'F' then some (c.toNat - 55)
  else none

/-- Body of a JSON string literal, after the opening quote; returns the decoded
string and the characters after the closing quote. -/
def strBody : List Char → List Char → Option (String × List Char)
  | [], _ => none
  | c :: rest, acc =>
    if c = quoteChar then some (String.mk acc.reverse, rest)
    else if c = backslashChar then
      match rest with
      | [] => none
      | e :: rest2 =>
        if e = quoteChar then strBody rest2 (quoteChar :: acc)
        else if e = backslashChar then strBody rest2 (backslashChar :: acc)
        else if e = '/' then strBody rest2 ('/' :: acc)
        else if e = 'n' then strBody rest2 (Char.ofNat 10 :: acc)
        else if e = 't' then strBody rest2 (Char.ofNat 9 :: acc)
        else if e = 'r' then strBody rest2 (Char.ofNat 13 :: acc)
        else if e = 'b' then strBody rest2 (Char.ofNat 8 :: acc)
        else if e = 'f' then strBody rest2 (Char.ofNat 12 :: acc)
        else if e = 'u' then
          match rest2 with
          | h1 :: h2 :: h3 :: h4 :: rest3 =>
            match hexDigit h1, hexDigit h2, hexDigit h3, hexDigit h4 with
            | some d1, some d2, some d3, some d4 =>
                strBody rest3 (Char.ofNat (((d1 * 16 + d2) * 16 + d3) * 16 + d4) :: acc)
            | _, _, _, _ => none
          | _ => none
        else none
    else strBody rest (c :: acc)

/-- A JSON string literal including the opening quote. -/
def parseStringLit (cs : List Char) : Option (String × List Char) :=
  match cs with
  | c :: rest => if c = quoteChar then strBody rest [] else none
  | [] => none

/-- Longest digit run at the front. -/
def takeDigits : List Char → List Char × List Char
  | [] => ([], [])
  | c :: rest =>
    if isDigit c then
      let p := takeDigits rest
      (c :: p.1, p.2)
    else ([], c :: rest)

/-- Optional fraction part of a JSON number. -/
def parseFrac (acc : List Char) (cs : List Char) : Option (List Char × List Char) :=
  match cs with
  | c :: rest =>
    if c = '.' then
      match takeDigits rest with
      | ([], _) => none
      | (ds, r) => some (acc ++ c :: ds, r)
    else some (acc, cs)
  | [] => some (acc, [])

/-- Optional exponent part of a JSON number. -/
def parseExp (acc : List Char) (cs : List Char) : Option (List Char × List Char) :=
  match cs with
  | c :: rest =>
    if c = 'e' || c = 'E' then
      let p : List Char × List Char :=
        match rest with
        | d :: r2 => if d = '+' || d = '-' then ([d], r2) else ([], rest)
        | [] => ([], [])
      match takeDigits p.2 with
      | ([], _) => none
      | (ds, r) => some (acc ++ c :: (p.1 ++ ds), r)
    else some (acc, cs)
  | [] => some (acc, [])

/-- A JSON number literal (`-?(0|[1-9][0-9]*)(\.[0-9]+)?([eE][+-]?[0-9]+)?`). -/
def parseNumberLit (cs : List Char) : Option (String × List Char) :=
  let p : List Char × List Char :=
    match cs with
    | c :: rest => if c = '-' then ([c], rest) else ([], cs)
    | [] => ([], [])
  match p.2 with
  | [] => none
  | c :: rest =>
    let intPart : Option (List Char × List Char) :=
      if c = '0' then some (p.1 ++ [c], rest)
      else if isDigit c then
        match takeDigits rest with
        | (ds, r) => some (p.1 ++ c :: ds, r)
      else none
    match intPart with
    | none => none
    | some (acc1, r1) =>
      match parseFrac acc1 r1 with
      | none => none
      | some (acc2, r2) =>
        match parseExp acc2 r2 with
        | none => none
        | some (acc3, r3) => some (String.mk acc3, r3)

mutual

/-- One JSON value, fuel-indexed (the fuel bounds nesting; `json_loads` supplies
more fuel than any input can consume). -/
def parseVal : Nat → List Char → Option (JsonVal × List Char)
  | 0, _ => none
  | Nat.succ fuel, cs =>
    match skipWs cs with
    | [] => none
    | c :: rest =>
      if c = lbrace then
        match skipWs rest with
        | c2 :: rest2 =>
          if c2 = rbrace then some (JsonVal.obj [], rest2)
          else parseMembers fuel (c2 :: rest2) []
        | [] => none
      else if c = '[' then
        match skipWs rest with
        | c2 :: rest2 =>
          if c2 = ']' then some (JsonVal.arr [], rest2)
          else parseElems fuel (c2 :: rest2) []
        | [] => none
      else if c = quoteChar then
        match parseStringLit (c :: rest) with
        | some (s, r) => some (JsonVal.str s, r)
        | none => none
      else if c = 't' then
        match rest with
        | 'r' :: 'u' :: 'e' :: r => some (JsonVal.bool true, r)
        | _ => none
      else if c = 'f' then
        match rest with
        | 'a' :: 'l' :: 's' :: 'e' :: r => some (JsonVal.bool false, r)
        | _ => none
      else if c = 'n' then
        match rest with
        | 'u' :: 'l' :: 'l' :: r => some (JsonVal.null, r)
        | _ => none
      else if c = '-' || isDigit c then
        match parseNumberLit (c :: rest) with
        | some (lit, r) => some (JsonVal.num lit, r)
        | none => none
      else none

/-- Members of a JSON object after the opening brace (non-empty case). -/
def parseMembers : Nat → List Char → List (String × JsonVal) → Option (JsonVal × List Char)
  | 0, _, _ => none
  | Nat.succ fuel, cs, acc =>
    match parseStringLit (skipWs cs) with
    | none => none
    | some (k, r1) =>
      match skipWs r1 with
      | c :: r2 =>
        if c = ':' then
          match parseVal fuel r2 with
          | none => none
          | some (v, r3) =>
            match skipWs r3 with
            | c2 :: r4 =>
              if c2 = ',' then parseMembers fuel r4 (acc ++ [(k, v)])
              else if c2 = rbrace then some (JsonVal.obj (acc ++ [(k, v)]), r4)
              else none
            | [] => none
        else none
      | [] => none

/-- Elements of a JSON array after the opening bracket (non-empty case). -/
def parseElems : Nat → List Char → List JsonVal → Option (JsonVal × List Char)
  | 0, _, _ => none
  | Nat.succ fuel, cs, acc =>
    match parseVal fuel cs with
    | none => none
    | some (v, r1) =>
      match skipWs r1 with
      | c :: r2 =>
        if c = ',' then parseElems fuel r2 (acc ++ [v])
        else if c = ']' then some (JsonVal.arr (acc ++ [v]), r2)
        else none
      | [] => none

end

/-- Model of Python's `json.loads` on the JSON fragment this repository
exercises: parse one JSON value, then require only whitespace to follow;
`none` models a raised `json.JSONDecodeError`. -/
def json_loads (s : String) : Option JsonVal :=
  match parseVal (s.length + 1) s.toList with
  | some (v, rest) => if (skipWs rest).isEmpty then some v else none
  | none => none

/-- Index of the first occurrence of a character, as in Python's `str.find`
(`none` models `find`'s `-1`). -/
def findIdxFrom (p : Char → Bool) : List Char → Option Nat
  | [] => none
  | c :: rest => if p c then some 0 else (findIdxFrom p rest).map (fun n => n + 1)

def pyFindIdx (s : String) (c : Char) : Option Nat :=
  findIdxFrom (fun ch => ch = c) s.toList

/-- Python's `str.rfind` (`none` models `-1`). -/
def pyRfindIdx (s : String) (c : Char) : Option Nat :=
  match findIdxFrom (fun ch => ch = c) s.toList.reverse with
  | some i => some (s.toList.length - 1 - i)
  | none => none

/-- Python slice `s[a:b]`. -/
def strSlice (s : String) (a b : Nat) : String :=
  String.mk ((s.toList.drop a).take (b - a))

/-- Embedding of `parse_json_safely(json_str)` (`utils.py`, lines 111-136): attempt a direct
parse; on failure take the substring from the first brace to the last brace
inclusive (requiring `start_idx >= 0 and end_idx > start_idx`) and parse that;
any remaining failure yields `None`.  Total by construction: the embedded
function never raises. -/
def parse_json_safely (s : String) : Option JsonVal :=
  match json_loads s with
  | some v => some v
  | none =>
    match pyFindIdx s lbrace, pyRfindIdx s rbrace with
    | some si, some ei =>
        if si < ei then json_loads (strSlice s si (ei + 1)) else none
    | _, _ => none

/- ### Observable events of `process_data` (progress callback and output file) -/

/-- Externally observable side effects of `process_data`, in order:
`headerWrite` is `result_df.head(0).to_csv(..., mode='w')` (line 86),
`progress n` is `self.update_progress(current_row)` (line 91, 1-based),
`rowDone i` marks row `i` reaching its terminal outcome (end of the retry
loop plus the final classification, lines 103-175), and `rowWrite i st` is
`row_df.to_csv(..., mode='a', header=False)` (line 181) carrying the
fully-resolved state of row `i`. -/
inductive Event where
  | headerWrite
  | progress (n : Nat)
  | rowDone (i : Nat)
  | rowWrite (i : Nat) (st : RowState)
deriving DecidableEq

/-- The events emitted while processing one row (body of the
`for index, row in df.iterrows()` loop, lines 89-182). -/
def rowBlock (hasOut : Bool) (oracle : Nat → Nat → AttemptOutcome) (mr : Nat)
    (i : Nat) (row : RowIn) : List Event :=
  [Event.progress (i + 1), Event.rowDone i] ++
    (if hasOut then [Event.rowWrite i (processRow row (oracle i) mr)] else [])

/-- Events of the whole row loop, rows numbered from `i`. -/
def traceRows (hasOut : Bool) (oracle : Nat → Nat → AttemptOutcome) (mr : Nat) :
    Nat → List RowIn → List Event
  | _, [] => []
  | i, row :: rest =>
      rowBlock hasOut oracle mr i row ++ traceRows hasOut oracle mr (i + 1) rest

/-- The full event trace of `process_data`: when an output file is configured
(`hasOut`), the header is written once before the row loop (lines 83-86). -/
def processTrace (df : List RowIn) (oracle : Nat → Nat → AttemptOutcome) (mr : Nat)
    (hasOut : Bool) : List Event :=
  (if hasOut then [Event.headerWrite] else []) ++ traceRows hasOut oracle mr 0 df

/-- The values passed to the progress callback, in order. -/
def progressValues (t : List Event) : List Nat :=
  t.filterMap (fun e => match e with | Event.progress n => some n | _ => none)

/-- The records appended to the output file, in order. -/
def writeRecords (t : List Event) : List (Nat × RowState) :=
  t.filterMap (fun e => match e with | Event.rowWrite i st => some (i, st) | _ => none)

/-- How many header writes the trace contains. -/
def headerCount (t : List Event) : Nat :=
  t.countP (fun e => match e with | Event.headerWrite => true | _ => false)

/-- The expected stream of appended records: row index paired with that row's
fully-processed state, in input order starting at index `k`. -/
def writesSpec (oracle : Nat → Nat → AttemptOutcome) (mr : Nat) :
    Nat → List RowIn → List (Nat × RowState)
  | _, [] => []
  | i, row :: rest => (i, processRow row (oracle i) mr) :: writesSpec oracle mr (i + 1) rest

/- ### The method roster of `YangAgent` (`yang.py`, lines 16-277) -/

/-- Every method defined by the `YangAgent` class in `yang.py`, in source
order.  `process_data` calls `self.yang.process_task(yang_task)` (line 118 of
`yin_yang_processor.py`); no such method exists, so the attribute access raises
`AttributeError` on every attempt. -/
def yangAgentMethods : List String :=
  ["__init__", "_register_tools", "execute_task",
   "_filter_data", "_sort_data", "_group_data", "_aggregate_data", "_pivot_data",
   "_merge_data", "_clean_data", "_transform_column", "_add_column", "_drop_column",
   "_rename_columns", "_value_counts", "_sample_data",
   "_describe_data", "_correlation", "_call_api"]

/- ### Cell-level lemmas -/

theorem getCell_setCell_same (cells : List (String × String)) (k v : String) :
    getCell (setCell cells k v) k = some v := by
  unfold setCell
  split
  · rename_i hany
    induction cells with
    | nil => simp at hany
    | cons p rest ih =>
      by_cases hp : p.1 = k
      · simp [getCell, hp]
      · simp only [List.any_cons, Bool.or_eq_true, decide_eq_true_eq] at hany
        rcases hany with h | h
        · exact absurd h hp
        · simpa [getCell, hp] using ih (by simpa using h)
  · induction cells with
    | nil => simp [getCell]
    | cons p rest ih =>
      rename_i hany
      simp only [List.any_cons, Bool.or_eq_true, decide_eq_true_eq, not_or] at hany
      simpa [getCell, hany.1] using ih (by simpa using hany.2)

theorem getCell_mapReplace (rest : List (String × String)) (k v k' : String)
    (h : k' ≠ k) :
    getCell (rest.map (fun p => if p.1 = k then (k, v) else p)) k' = getCell rest k' := by
  induction rest with
  | nil => simp [getCell]
  | cons p tl ih =>
    by_cases hp : p.1 = k
    · have hk : ¬k = k' := fun hk => h hk.symm
      have hp' : ¬p.1 = k' := by rw [hp]; exact hk
      simp [getCell, hp, hk, hp', ih]
    · simp only [List.map_cons, if_neg hp]
      by_cases hq : p.1 = k' <;> simp [getCell, hq, ih]

theorem getCell_append_single (rest : List (String × String)) (k v k' : String)
    (h : k' ≠ k) :
    getCell (rest ++ [(k, v)]) k' = getCell rest k' := by
  induction rest with
  | nil =>
    simp only [List.nil_append, getCell]
    exact if_neg (fun hk => h (Eq.symm hk))
  | cons p tl ih =>
    by_cases hq : p.1 = k' <;> simp [getCell, hq, ih]

theorem getCell_setCell_other (cells : List (String × String)) (k v k' : String)
    (h : k' ≠ k) : getCell (setCell cells k v) k' = getCell cells k' := by
  unfold setCell
  split
  · exact getCell_mapReplace cells k v k' h
  · exact getCell_append_single cells k v k' h

theorem lastVal_foldl_init (k : String) (r : List (String × String))
    (init : Option String) :
    r.foldl (fun acc p => if p.1 = k then some p.2 else acc) init =
      match lastVal r k with
      | some v => some v
      | none => init := by
  induction r generalizing init with
  | nil => simp [lastVal]
  | cons p rest ih =>
    unfold lastVal
    simp only [List.foldl_cons]
    rw [ih, ih (if p.1 = k then some p.2 else none)]
    by_cases hp : p.1 = k <;> cases lastVal rest k <;> simp [lastVal, hp]

theorem getCell_mergeResult (r cells : List (String × String)) (k : String) :
    getCell (mergeResult cells r) k =
      match lastVal r k with
      | some v => some v
      | none => getCell cells k := by
  induction r generalizing cells with
  | nil => simp [mergeResult, lastVal]
  | cons p rest ih =>
    unfold mergeResult at ih ⊢
    simp only [List.foldl_cons]
    rw [ih]
    have hlast : lastVal (p :: rest) k =
        match lastVal rest k with
        | some v => some v
        | none => if p.1 = k then some p.2 else none := by
      unfold lastVal
      simp only [List.foldl_cons]
      exact lastVal_foldl_init k rest _
    rw [hlast]
    rcases hcase : lastVal rest k with _ | v0
    · by_cases hp : p.1 = k
      · rw [hp, if_pos rfl]
        simp [getCell_setCell_same]
      · rw [if_neg hp]
        simp [getCell_setCell_other cells p.1 p.2 k (fun hk => hp (Eq.symm hk))]
    · simp

/- ### The all-attempts-raise run (missing `process_task`) -/

theorem processRowGo_replicate_raised (n : Nat) (s : RowState) :
    processRowGo (List.replicate n AttemptOutcome.raised) s =
      if n = 0 then s
      else { s with hadError := true, attempts := s.attempts + n } := by
  induction n generalizing s with
  | zero => rfl
  | succ m ih =>
    rw [List.replicate_succ]
    show processRowGo (List.replicate m AttemptOutcome.raised)
      { s with hadError := true, attempts := s.attempts + 1 } = _
    rw [ih]
    by_cases hm : m = 0
    · subst hm; simp
    · simp only [hm, if_false, Nat.succ_ne_zero, if_neg]
      cases s
      simp
      omega

/- ### Table-level and trace-level lemmas -/

theorem processRows_length (oracle : Nat → Nat → AttemptOutcome) (mr : Nat)
    (df : List RowIn) (k : Nat) :
    (processRows oracle mr k df).length = df.length := by
  induction df generalizing k with
  | nil => rfl
  | cons row rest ih => simp [processRows, ih]

theorem processRow_decision_cases (row : RowIn) (oracle : Nat → AttemptOutcome) (mr : Nat) :
    (processRow row oracle mr).decision = "valid" ∨
    (processRow row oracle mr).decision = "invalid" ∨
    (processRow row oracle mr).decision = "error" := by
  unfold processRow
  set g := processRowGo ((List.range mr).map oracle) (initState row) with hg
  by_cases hs : g.success = true
  · left
    have hval : g.decision = "valid" :=
      processRowGo_success_valid _ _ rfl hs
    unfold finalizeRow
    rw [if_pos hs]
    exact hval
  · unfold finalizeRow
    rw [if_neg hs]
    by_cases he : g.hadError = true
    · right; right; rw [if_pos he]
    · right; left; rw [if_neg he]

theorem processRows_mem (oracle : Nat → Nat → AttemptOutcome) (mr k : Nat)
    (df : List RowIn) (st : RowState) (h : st ∈ processRows oracle mr k df) :
    ∃ i row, st = processRow row (oracle i) mr := by
  induction df generalizing k with
  | nil => simp [processRows] at h
  | cons row rest ih =>
    simp only [processRows, List.mem_cons] at h
    rcases h with h | h
    · exact ⟨k, row, h⟩
    · exact ih (k + 1) h

theorem processRows_const_raised (df : List RowIn) (mr : Nat) (h : 1 ≤ mr) (k : Nat) :
    processRows (fun _ _ => AttemptOutcome.raised) mr k df =
      df.map (fun row =>
        { cells := row, decision := "error", hadError := true,
          attempts := mr, success := false }) := by
  induction df generalizing k with
  | nil => rfl
  | cons row rest ih =>
    simp only [processRows, List.map_cons, ih (k + 1)]
    congr 1
    unfold processRow
    have hmap : (List.range mr).map (fun _ => AttemptOutcome.raised) =
        List.replicate mr AttemptOutcome.raised := by
      simp [List.map_const']
    rw [hmap, processRowGo_replicate_raised]
    have hmr : ¬mr = 0 := by omega
    rw [if_neg hmr]
    unfold finalizeRow initState
    simp

theorem progressValues_traceRows (hasOut : Bool) (oracle : Nat → Nat → AttemptOutcome)
    (mr : Nat) (df : List RowIn) (k : Nat) :
    progressValues (traceRows hasOut oracle mr k df) =
      (List.range df.length).map (fun i => k + i + 1) := by
  induction df generalizing k with
  | nil => rfl
  | cons row rest ih =>
    have hblock : progressValues (rowBlock hasOut oracle mr k row) = [k + 1] := by
      cases hasOut <;> simp [rowBlock, progressValues]
    simp only [traceRows, progressValues, List.filterMap_append]
    show progressValues _ ++ progressValues _ = _
    rw [hblock, ih (k + 1), List.length_cons, List.range_succ_eq_map, List.map_cons,
      List.map_map]
    have : ((fun i => k + i + 1) ∘ Nat.succ) = fun i => k + 1 + i + 1 := by
      funext i
      show k + (i + 1) + 1 = k + 1 + i + 1
      omega
    simp [this]

theorem traceRows_block_at (hasOut : Bool) (oracle : Nat → Nat → AttemptOutcome)
    (mr : Nat) (df : List RowIn) (k i : Nat) (h : i < df.length) :
    ∃ pre post, traceRows hasOut oracle mr k df =
      pre ++ Event.progress (k + i + 1) :: Event.rowDone (k + i) :: post := by
  induction df generalizing k i with
  | nil => simp at h
  | cons row rest ih =>
    cases i with
    | zero =>
      refine ⟨[], (if hasOut then [Event.rowWrite k (processRow row (oracle k) mr)] else [])
        ++ traceRows hasOut oracle mr (k + 1) rest, ?_⟩
      simp [traceRows, rowBlock]
    | succ j =>
      have hj : j < rest.length := by simpa using h
      obtain ⟨pre, post, hpp⟩ := ih (k + 1) j hj
      refine ⟨rowBlock hasOut oracle mr k row ++ pre, post, ?_⟩
      have h1 : k + 1 + j + 1 = k + (j + 1) + 1 := by omega
      have h2 : k + 1 + j = k + (j + 1) := by omega
      rw [traceRows, hpp, h1, h2, List.append_assoc]

theorem headerCount_traceRows (hasOut : Bool) (oracle : Nat → Nat → AttemptOutcome)
    (mr : Nat) (df : List RowIn) (k : Nat) :
    headerCount (traceRows hasOut oracle mr k df) = 0 := by
  induction df generalizing k with
  | nil => rfl
  | cons row rest ih =>
    simp only [traceRows, headerCount, List.countP_append]
    show headerCount _ + headerCount _ = 0
    rw [ih (k + 1)]
    cases hasOut <;> simp [rowBlock, headerCount, List.countP_cons]

theorem writeRecords_traceRows (oracle : Nat → Nat → AttemptOutcome)
    (mr : Nat) (df : List RowIn) (k : Nat) :
    writeRecords (traceRows true oracle mr k df) = writesSpec oracle mr k df := by
  induction df generalizing k with
  | nil => rfl
  | cons row rest ih =>
    simp only [traceRows, writeRecords, List.filterMap_append]
    show writeRecords _ ++ writeRecords _ = _
    rw [ih (k + 1)]
    simp [rowBlock, writeRecords, writesSpec]

theorem writesSpec_fst (oracle : Nat → Nat → AttemptOutcome) (mr : Nat)
    (df : List RowIn) (k : Nat) :
    (writesSpec oracle mr k df).map Prod.fst = (List.range df.length).map (fun i => k + i) := by
  induction df generalizing k with
  | nil => rfl
  | cons row rest ih =>
    simp only [writesSpec, List.map_cons, ih (k + 1), List.length_cons,
      List.range_succ_eq_map, List.map_map]
    have : ((fun i => k + i) ∘ Nat.succ) = fun i => k + 1 + i := by
      funext i
      show k + (i + 1) = k + 1 + i
      omega
    simp [this]

theorem writesSpec_snd (oracle : Nat → Nat → AttemptOutcome) (mr : Nat)
    (df : List RowIn) (k : Nat) :
    (writesSpec oracle mr k df).map Prod.snd = processRows oracle mr k df := by
  induction df generalizing k with
  | nil => rfl
  | cons row rest ih => simp [writesSpec, processRows, ih (k + 1)]

theorem traceRows_write_at (oracle : Nat → Nat → AttemptOutcome)
    (mr : Nat) (df : List RowIn) (k i : Nat) (h : i < df.length) :
    ∃ pre post st, traceRows true oracle mr k df =
      pre ++ Event.rowDone (k + i) :: Event.rowWrite (k + i) st :: post := by
  induction df generalizing k i with
  | nil => simp at h
  | cons row rest ih =>
    cases i with
    | zero =>
      refine ⟨[Event.progress (k + 1)], traceRows true oracle mr (k + 1) rest,
        processRow row (oracle k) mr, ?_⟩
      simp [traceRows, rowBlock]
    | succ j =>
      have hj : j < rest.length := by simpa using h
      obtain ⟨pre, post, st, hpp⟩ := ih (k + 1) j hj
      refine ⟨rowBlock true oracle mr k row ++ pre, post, st, ?_⟩
      have h2 : k + 1 + j = k + (j + 1) := by omega
      rw [traceRows, hpp, h2, List.append_assoc]

/- ### Claim theorems -/

/-- Claim C1: for every input table, every command (absorbed into the oracle),
every `max_retries ≥ 1` and every behavior of the Executor and validation
calls, `process_data` returns a table with exactly as many rows as the input,
and every row's `ai_decision` cell holds one of `"valid"`, `"invalid"`,
`"error"`.  The embedding is total, so no exception from per-row processing
propagates out of `process_data`. -/
theorem c1_shape_and_outcomes (df : List RowIn) (oracle : Nat → Nat → AttemptOutcome)
    (mr : Nat) (h : 1 ≤ mr) :
    (process_data df oracle mr).length = df.length ∧
    ∀ st ∈ process_data df oracle mr,
      st.decision = "valid" ∨ st.decision = "invalid" ∨ st.decision = "error" := by
  refine ⟨processRows_length oracle mr df 0, fun st hst => ?_⟩
  obtain ⟨i, row, rfl⟩ := processRows_mem oracle mr 0 df st hst
  exact processRow_decision_cases row (oracle i) mr

/-- Witness for C1 at a one-row table with `max_retries = 1` and an
always-raising oracle. -/
theorem c1_shape_and_outcomes_witness :
    (process_data [[("name", "Ada")]] (fun _ _ => AttemptOutcome.raised) 1).length = 1 ∧
    ((processRow [("name", "Ada")] (fun _ => AttemptOutcome.raised) 1).decision = "valid" ∨
     (processRow [("name", "Ada")] (fun _ => AttemptOutcome.raised) 1).decision = "invalid" ∨
     (processRow [("name", "Ada")] (fun _ => AttemptOutcome.raised) 1).decision = "error") :=
  ⟨(c1_shape_and_outcomes [[("name", "Ada")]] (fun _ _ => AttemptOutcome.raised) 1
      (by decide)).1,
   (c1_shape_and_outcomes [[("name", "Ada")]] (fun _ _ => AttemptOutcome.raised) 1
      (by decide)).2
    (processRow [("name", "Ada")] (fun _ => AttemptOutcome.raised) 1)
    (by simp [process_data, processRows])⟩

/-- Claim C2: the `YangAgent` class imported by `yin_yang_processor` defines
`execute_task` but no `process_task` method, so `self.yang.process_task(...)`
raises `AttributeError` on every attempt; under the resulting always-raising
oracle every row of the output has `ai_decision = "error"` and its cells are
exactly the input cells (no enrichment columns were ever merged). -/
theorem c2_process_task_missing (df : List RowIn) (mr : Nat) (h : 1 ≤ mr) :
    "process_task" ∉ yangAgentMethods ∧
    "execute_task" ∈ yangAgentMethods ∧
    process_data df (fun _ _ => AttemptOutcome.raised) mr =
      df.map (fun row =>
        { cells := row, decision := "error", hadError := true,
          attempts := mr, success := false }) :=
  ⟨by decide, by decide, processRows_const_raised df mr h 0⟩

/-- Witness for C2 at a one-row table with `max_retries = 1`. -/
theorem c2_process_task_missing_witness :
    "process_task" ∉ yangAgentMethods ∧
    process_data [[("name", "Ada")]] (fun _ _ => AttemptOutcome.raised) 1 =
      [{ cells := [("name", "Ada")], decision := "error", hadError := true,
         attempts := 1, success := false }] :=
  ⟨(c2_process_task_missing [[("name", "Ada")]] 1 (by decide)).1, by
    have := (c2_process_task_missing [[("name", "Ada")]] 1 (by decide)).2.2
    simpa using this⟩

theorem isRaised_eq_true_iff (o : AttemptOutcome) :
    isRaised o = true ↔ o = AttemptOutcome.raised := by
  cases o <;> simp [isRaised]

/-- Claim C3: for a row on which `success` never becomes true, the final
`ai_decision` is `"error"` exactly when some attempt raised an exception
(`had_error` was ever set), and `"invalid"` exactly when no attempt raised.
An exception on any attempt forces `"error"` even when the last attempt ended
in a clean validation rejection. -/
theorem c3_error_dominance (row : RowIn) (oracle : Nat → AttemptOutcome) (mr : Nat)
    (h : (processRow row oracle mr).success = false) :
    ((processRow row oracle mr).decision = "error" ↔
      ∃ k, k < mr ∧ oracle k = AttemptOutcome.raised) ∧
    ((processRow row oracle mr).decision = "invalid" ↔
      ¬∃ k, k < mr ∧ oracle k = AttemptOutcome.raised) := by
  unfold processRow at h ⊢
  set g := processRowGo ((List.range mr).map oracle) (initState row) with hg
  have hgs : g.success = false := by rw [← finalizeRow_success]; exact h
  have hhe : g.hadError = ((List.range mr).map oracle).any isRaised := by
    have := processRowGo_hadError ((List.range mr).map oracle) (initState row) hgs
    simpa [initState] using this
  have hany : (((List.range mr).map oracle).any isRaised = true) ↔
      ∃ k, k < mr ∧ oracle k = AttemptOutcome.raised := by
    rw [List.any_eq_true]
    constructor
    · rintro ⟨o, ho, hr⟩
      obtain ⟨k, hk, rfl⟩ := List.mem_map.mp ho
      exact ⟨k, List.mem_range.mp hk, (isRaised_eq_true_iff _).mp hr⟩
    · rintro ⟨k, hk, hr⟩
      exact ⟨oracle k, List.mem_map.mpr ⟨k, List.mem_range.mpr hk, rfl⟩,
        (isRaised_eq_true_iff _).mpr hr⟩
  unfold finalizeRow
  rw [if_neg (by rw [hgs]; exact Bool.false_ne_true)]
  by_cases hb : ((List.range mr).map oracle).any isRaised = true
  · rw [if_pos (by rw [hhe]; exact hb)]
    constructor
    · exact ⟨fun _ => hany.mp hb, fun _ => rfl⟩
    · constructor
      · intro hd; simp at hd
      · intro hd; exact absurd (hany.mp hb) hd
  · rw [if_neg (by rw [hhe]; exact hb)]
    constructor
    · constructor
      · intro hd; simp at hd
      · intro hd; exact absurd (hany.mpr hd) hb
    · exact ⟨fun _ => fun hd => hb (hany.mpr hd), fun _ => rfl⟩

/-- Witness for C3: two attempts, the first raising, the second a clean
validation rejection — final classification is `"error"`. -/
theorem c3_error_dominance_witness :
    (processRow []
      (fun k => if k = 0 then AttemptOutcome.raised
                else AttemptOutcome.ok [("x", "1")] false) 2).decision = "error" :=
  ((c3_error_dominance []
      (fun k => if k = 0 then AttemptOutcome.raised
                else AttemptOutcome.ok [("x", "1")] false) 2 (by decide)).1).mpr
    ⟨0, by omega, by decide⟩

/-- Claim C4: on every attempt where the Executor returns a mapping without
raising, every key-value pair of the result is merged into the row's cells
regardless of the verdict (both the rejecting and the accepting branch carry
the merged cells), and for the same attribute name a later attempt's value
overwrites an earlier attempt's value (last write wins across and within
attempts, falling back to the pre-existing cell). -/
theorem c4_merge_regardless_of_verdict (s : RowState) (r r2 : List (String × String))
    (rest : List AttemptOutcome) :
    (processRowGo (AttemptOutcome.ok r false :: rest) s =
      processRowGo rest { s with cells := mergeResult s.cells r,
                                 decision := "invalid", attempts := s.attempts + 1 }) ∧
    (processRowGo (AttemptOutcome.ok r true :: rest) s =
      { s with cells := mergeResult s.cells r, decision := "valid",
               success := true, attempts := s.attempts + 1 }) ∧
    (∀ k, getCell (mergeResult (mergeResult s.cells r) r2) k =
      match lastVal r2 k with
      | some v => some v
      | none =>
        match lastVal r k with
        | some v => some v
        | none => getCell s.cells k) := by
  refine ⟨rfl, rfl, fun k => ?_⟩
  rw [getCell_mergeResult, getCell_mergeResult]

/-- Counterexample to claim C5 as stated: the error-marker result
`{"error": reason}` is a non-empty mapping, so the structural check of
`validate_yang_response` does not reject it — the completion capability is
invoked, and with an accepting response the marker is even accepted. -/
theorem c5_counterexample :
    (validate_yang_response (YangResponse.dict [("error", "some reason")])
      (Except.ok "WOOHOO looks plausible")).llmCalled = true ∧
    (validate_yang_response (YangResponse.dict [("error", "some reason")])
      (Except.ok "WOOHOO looks plausible")).isValid = true :=
  ⟨rfl, by decide⟩

/-- Claim C5 as amended: for every result and every completion behavior,
`validate_yang_response` returns a rejection without issuing any
completion-capability call whenever the result is not a mapping or is an
empty mapping; the error-marker `{"error": reason}` is not covered by this
structural check (see the counterexample). -/
theorem c5_structural_short_circuit (resp : YangResponse) (llm : Except String String)
    (h : resp = YangResponse.nonDict ∨ resp = YangResponse.dict []) :
    (validate_yang_response resp llm).isValid = false ∧
    (validate_yang_response resp llm).llmCalled = false := by
  rcases h with rfl | rfl
  · exact ⟨rfl, rfl⟩
  · exact ⟨rfl, rfl⟩

/-- Witness for amended C5 at the empty mapping. -/
theorem c5_structural_short_circuit_witness :
    (validate_yang_response (YangResponse.dict []) (Except.ok "WOOHOO")).isValid = false ∧
    (validate_yang_response (YangResponse.dict []) (Except.ok "WOOHOO")).llmCalled = false :=
  c5_structural_short_circuit (YangResponse.dict []) (Except.ok "WOOHOO") (Or.inr rfl)

/-- The concrete noisy input of claim C6. -/
def exampleNoisy : String := "Here is the result: \x7b\"a\": \"1\", \"b\": \"2\"\x7d Thanks!"

/-- Counterexample to claim C6 as stated: the input `"42"` contains no braces,
yet `parse_json_safely` returns the parsed number `42` (the direct parse
succeeds), not "no result" — and the returned value is not a mapping. -/
theorem c6_counterexample :
    parse_json_safely "42" = some (JsonVal.num "42") ∧
    lbrace ∉ "42".toList ∧
    (parse_json_safely "42").isSome = true :=
  ⟨rfl, by decide, rfl⟩

theorem findIdxFrom_eq_none (c : Char) (l : List Char) (h : c ∉ l) :
    findIdxFrom (fun ch => ch = c) l = none := by
  induction l with
  | nil => rfl
  | cons a rest ih =>
    simp only [List.mem_cons, not_or] at h
    have ha : ¬a = c := fun hac => h.1 (Eq.symm hac)
    simp [findIdxFrom, ha, ih h.2]

/-- Claim C6 as amended: `parse_json_safely` never raises (it is total); it
first attempts a direct parse and returns whatever value that yields — even a
non-mapping such as `42`; on direct-parse failure it parses the substring from
the first brace to the last brace inclusive, as the concrete noisy input
shows; and when the direct parse fails and the text contains no opening brace
it returns "no result" (`none`) rather than raising. -/
theorem c6_extraction_amended :
    parse_json_safely exampleNoisy =
      some (JsonVal.obj [("a", JsonVal.str "1"), ("b", JsonVal.str "2")]) ∧
    (∀ s v, json_loads s = some v → parse_json_safely s = some v) ∧
    (∀ s, json_loads s = none → lbrace ∉ s.toList → parse_json_safely s = none) := by
  refine ⟨rfl, fun s v h => ?_, fun s h1 h2 => ?_⟩
  · unfold parse_json_safely
    rw [h]
  · unfold parse_json_safely
    rw [h1]
    have hf : pyFindIdx s lbrace = none := findIdxFrom_eq_none lbrace s.toList h2
    rw [hf]

/-- Witness for amended C6 on a brace-free prose input. -/
theorem c6_extraction_amended_witness :
    parse_json_safely "no braces here" = none :=
  c6_extraction_amended.2.2 "no braces here" rfl (by decide)

/-- Claim C7: a row whose first attempt returns a result that validation
accepts costs exactly one iteration of the loop body (`attempts = 1`, i.e.
exactly one Executor call and one Planner-validate call), breaks out of the
retry loop immediately even though retry budget remains, and ends with
`ai_decision = "valid"` and the result merged into the cells. -/
theorem c7_first_attempt_accepted (row : RowIn) (oracle : Nat → AttemptOutcome)
    (mr : Nat) (r : List (String × String)) (h1 : 1 ≤ mr)
    (h2 : oracle 0 = AttemptOutcome.ok r true) :
    processRow row oracle mr =
      { cells := mergeResult row r, decision := "valid", hadError := false,
        attempts := 1, success := true } := by
  obtain ⟨m, rfl⟩ : ∃ m, mr = m + 1 := ⟨mr - 1, by omega⟩
  unfold processRow
  rw [List.range_succ_eq_map, List.map_cons, h2]
  rfl

/-- Witness for C7: accepted first attempt with `max_retries = 3`. -/
theorem c7_first_attempt_accepted_witness :
    processRow [("name", "Ada")] (fun _ => AttemptOutcome.ok [("country", "UK")] true) 3 =
      { cells := mergeResult [("name", "Ada")] [("country", "UK")], decision := "valid",
        hadError := false, attempts := 1, success := true } :=
  c7_first_attempt_accepted [("name", "Ada")]
    (fun _ => AttemptOutcome.ok [("country", "UK")] true) 3 [("country", "UK")]
    (by decide) rfl

/-- Claim C8: for every non-empty mapping result and every exception raised
inside validation (modeled through the completion oracle), the exception
never propagates: `validate_yang_response` returns a rejection whose rationale
text contains the exception's message.  (On the short-circuit paths no
completion call happens, so no exception can arise there.) -/
theorem c8_validation_catches_exceptions (entries : List (String × String)) (e : String)
    (h : entries ≠ []) :
    (validate_yang_response (YangResponse.dict entries) (Except.error e)).isValid = false ∧
    hasSubstr e.toList
      ((validate_yang_response (YangResponse.dict entries) (Except.error e)).message).toList
      = true := by
  have hne : entries.isEmpty = false := by
    cases entries with
    | nil => exact absurd rfl h
    | cons a t => rfl
  refine ⟨by simp [validate_yang_response, hne], ?_⟩
  have hmsg : (validate_yang_response (YangResponse.dict entries)
      (Except.error e)).message = "Validation error: " ++ e := by
    simp [validate_yang_response, hne]
  rw [hmsg]
  have htl : ("Validation error: " ++ e).toList =
      "Validation error: ".toList ++ e.toList := by simp [String.toList]
  rw [htl]
  exact hasSubstr_append_self _ _

/-- Witness for C8 at a singleton mapping and the exception text "boom". -/
theorem c8_validation_catches_exceptions_witness :
    (validate_yang_response (YangResponse.dict [("a", "b")])
      (Except.error "boom")).isValid = false ∧
    hasSubstr "boom".toList
      ((validate_yang_response (YangResponse.dict [("a", "b")])
        (Except.error "boom")).message).toList = true :=
  c8_validation_catches_exceptions [("a", "b")] "boom" (by decide)

/-- Claim C9: with the default positional index, the progress callback is
called once per row with the 1-based row index, the sequence of reported
values is strictly increasing, and each row's progress signal is emitted
immediately before that row's processing (it directly precedes the event
marking the row's terminal outcome in the trace). -/
theorem c9_progress_contract (df : List RowIn) (oracle : Nat → Nat → AttemptOutcome)
    (mr : Nat) (hasOut : Bool) :
    progressValues (processTrace df oracle mr hasOut) =
      (List.range df.length).map (fun i => i + 1) ∧
    List.Pairwise (fun a b => a < b)
      (progressValues (processTrace df oracle mr hasOut)) ∧
    (∀ i, i < df.length → ∃ pre post, processTrace df oracle mr hasOut =
      pre ++ Event.progress (i + 1) :: Event.rowDone i :: post) := by
  have hpv : progressValues (processTrace df oracle mr hasOut) =
      (List.range df.length).map (fun i => i + 1) := by
    have h0 : progressValues (processTrace df oracle mr hasOut) =
        progressValues (traceRows hasOut oracle mr 0 df) := by
      cases hasOut <;> simp [processTrace, progressValues]
    rw [h0, progressValues_traceRows]
    have : (fun i => 0 + i + 1) = fun i : Nat => i + 1 := by
      funext i
      omega
    rw [this]
  refine ⟨hpv, ?_, fun i hi => ?_⟩
  · rw [hpv]
    exact List.pairwise_map.mpr ((List.pairwise_lt_range df.length).imp
      (fun hab => by omega))
  · obtain ⟨pre, post, hpp⟩ := traceRows_block_at hasOut oracle mr df 0 i hi
    refine ⟨(if hasOut then [Event.headerWrite] else []) ++ pre, post, ?_⟩
    rw [processTrace, hpp]
    simp

/-- Witness for C9 on a one-row table. -/
theorem c9_progress_contract_witness :
    ∃ pre post,
      processTrace [[("name", "Ada")]] (fun _ _ => AttemptOutcome.raised) 1 false =
        pre ++ Event.progress (0 + 1) :: Event.rowDone 0 :: post :=
  (c9_progress_contract [[("name", "Ada")]] (fun _ _ => AttemptOutcome.raised) 1
    false).2.2 0 (by decide)

theorem headerCount_cons_header (l : List Event) :
    headerCount (Event.headerWrite :: l) = headerCount l + 1 := by
  simp [headerCount, List.countP_cons]

/-- Claim C10: with an output file configured, the header is written exactly
once and first; thereafter exactly one record is appended per input row, in
processing order (the written indices are `0, 1, ...` in order), each record
being the row's fully-processed state (equal to the returned table's row), and
each append happens only after that row reached its terminal outcome.  The
trace is a list of appends — records once written are never rewritten. -/
theorem c10_streaming_sink (df : List RowIn) (oracle : Nat → Nat → AttemptOutcome)
    (mr : Nat) :
    (processTrace df oracle mr true).head? = some Event.headerWrite ∧
    headerCount (processTrace df oracle mr true) = 1 ∧
    writeRecords (processTrace df oracle mr true) = writesSpec oracle mr 0 df ∧
    (writesSpec oracle mr 0 df).map Prod.fst = List.range df.length ∧
    (writesSpec oracle mr 0 df).map Prod.snd = process_data df oracle mr ∧
    (∀ i, i < df.length → ∃ pre post st, processTrace df oracle mr true =
      pre ++ Event.rowDone i :: Event.rowWrite i st :: post) := by
  refine ⟨rfl, ?_, ?_, ?_, writesSpec_snd oracle mr df 0, fun i hi => ?_⟩
  · show headerCount (Event.headerWrite :: traceRows true oracle mr 0 df) = 1
    rw [headerCount_cons_header, headerCount_traceRows]
  · show writeRecords (Event.headerWrite :: traceRows true oracle mr 0 df) =
      writesSpec oracle mr 0 df
    have : writeRecords (Event.headerWrite :: traceRows true oracle mr 0 df) =
        writeRecords (traceRows true oracle mr 0 df) := by
      simp [writeRecords]
    rw [this, writeRecords_traceRows]
  · have := writesSpec_fst oracle mr df 0
    simpa using this
  · obtain ⟨pre, post, st, hpp⟩ := traceRows_write_at oracle mr df 0 i hi
    refine ⟨Event.headerWrite :: pre, post, st, ?_⟩
    show Event.headerWrite :: traceRows true oracle mr 0 df = _
    rw [hpp]
    simp

/-- Witness for C10 on a one-row table. -/
theorem c10_streaming_sink_witness :
    ∃ pre post st,
      processTrace [[("name", "Ada")]] (fun _ _ => AttemptOutcome.raised) 1 true =
        pre ++ Event.rowDone 0 :: Event.rowWrite 0 st :: post :=
  (c10_streaming_sink [[("name", "Ada")]] (fun _ _ => AttemptOutcome.raised)
    1).2.2.2.2.2 0 (by decide)
